import Mathlib

/-!
Verification of the address-space allocation engine of an IPv4 address
management system (`backend/app/logic.py`).

Addresses are modelled as natural numbers below `2^32`.  A parsed network
(`ipaddress.ip_network(cidr, strict=False)`) is modelled as a `Block`: the
numeric network address together with the prefix length.  `strict=False`
parsing masks the host bits, so every block obtained from parsing satisfies
`wf`: its base is below `2^32` and aligned to the prefix length.

Python `float` results of the utilization calculator are modelled exactly by
`ℚ`; every value the claims mention (0, 50, 100, 2/254*100) is exactly
representable in both.
-/

/-- A parsed IPv4 network: `network_address` (as an integer) and prefix length.
Mirrors the result of `ipaddress.ip_network(..., strict=False)`. -/
structure Block where
  base : Nat
  prefix_len : Nat
deriving DecidableEq, Repr

deriving instance DecidableEq for Except

/-- `num_addresses` of a network: `2^(32 - prefixlen)`. -/
def Block.size (b : Block) : Nat := 2 ^ (32 - b.prefix_len)

/-- `broadcast_address` of a network: `base + size - 1`. -/
def Block.broadcast (b : Block) : Nat := b.base + b.size - 1

/-- Well-formedness guaranteed by `ipaddress.ip_network(_, strict=False)`:
prefix length at most 32, base below `2^32`, and base aligned to the prefix
(the parser masks host bits away). -/
def Block.wf (b : Block) : Prop :=
  b.prefix_len ≤ 32 ∧ b.base < 2 ^ 32 ∧ b.base % b.size = 0

instance (b : Block) : Decidable b.wf := by unfold Block.wf; infer_instance

/-- Python `addr in network` (`IPv4Network.__contains__`): the address with its
host bits cleared equals the network address, i.e.
`other._ip & int(self.netmask) == int(self.network_address)`.  Clearing the
low `32 - prefixlen` bits is written with division and multiplication. -/
def containsAddr (n : Block) (x : Nat) : Bool :=
  x / n.size * n.size == n.base

/-- Python `IPv4Network.overlaps`:
`self.network_address in other or self.broadcast_address in other or
 (other.network_address in self and other.broadcast_address in self)`. -/
def pyOverlaps (a b : Block) : Bool :=
  containsAddr b a.base || containsAddr b a.broadcast ||
    (containsAddr a b.base && containsAddr a b.broadcast)

/-- `validate_overlap` (`logic.py` lines 5-20): walk the existing subnets and
return `True` as soon as one overlaps the candidate, else `False`.  The
candidate and the members are the already-parsed networks. -/
def validate_overlap (new_net : Block) (existing_subnets : List Block) : Bool :=
  existing_subnets.any (fun s => pyOverlaps new_net s)

/-- Decimal digit character, `'0'` to `'9'`. -/
def digitChar (d : Nat) : Char := Char.ofNat (48 + d)

/-- Decimal rendering of a natural number below 1000 (enough for IPv4 octets
and prefix lengths), as Python's `"%d"` produces it. -/
def decChars (n : Nat) : List Char :=
  if n < 10 then [digitChar n]
  else if n < 100 then [digitChar (n / 10), digitChar (n % 10)]
  else [digitChar (n / 100), digitChar (n / 10 % 10), digitChar (n % 10)]

/-- Numeric value of a list of decimal digit characters. -/
def decVal (cs : List Char) : Nat :=
  cs.foldl (fun a c => 10 * a + (c.toNat - 48)) 0

/-- The characters of Python `str(IPv4Address(v))`: dotted-quad decimal. -/
def ipToChars (v : Nat) : List Char :=
  decChars (v / 2 ^ 24) ++ '.' ::
    (decChars (v / 2 ^ 16 % 256) ++ '.' ::
      (decChars (v / 2 ^ 8 % 256) ++ '.' :: decChars (v % 256)))

/-- Python `str(IPv4Address(v))`. -/
def ipToString (v : Nat) : String := String.mk (ipToChars v)

/-- The characters of Python `str(network)`: `"a.b.c.d/p"`. -/
def netChars (b : Block) : List Char :=
  ipToChars b.base ++ '/' :: decChars b.prefix_len

/-- `network.hosts()` (`ipaddress`): for a /32, the single address; for a /31
(RFC 3021) both addresses; otherwise all addresses strictly between network
and broadcast, ascending. -/
def hostsList (b : Block) : List Nat :=
  if b.prefix_len = 32 then [b.base]
  else if b.prefix_len = 31 then [b.base, b.base + 1]
  else List.range' (b.base + 1) (b.size - 2)

/-- `get_next_available_ip` (`logic.py` lines 22-40): scan `network.hosts()`
in order and return the first address whose string form is not in the
allocated set; `None` if all are taken.  Membership is tested on the dotted
strings, exactly as the Python set of strings does. -/
def get_next_available_ip (b : Block) (allocated_ips : List String) : Option String :=
  ((hostsList b).find? (fun ip => !(allocated_ips.contains (ipToString ip)))).map ipToString

/-- `calculate_utilization` (`logic.py` lines 42-55): `total_usable` is
`num_addresses - 2`; if that is nonpositive the function returns `100.0` for a
positive count and `0.0` otherwise, else `(count / total) * 100.0`. -/
def calculate_utilization (allocated_count : Int) (b : Block) : ℚ :=
  let total_usable : Int := (b.size : Int) - 2
  if total_usable ≤ 0 then
    if allocated_count > 0 then 100 else 0
  else
    (allocated_count : ℚ) / (total_usable : ℚ) * 100

/-- The networks of `IPv4Address._constants._private_networks`, used by
`IPv4Address.is_private`. -/
def privateNetworks : List Block :=
  [⟨0x00000000, 8⟩,   -- 0.0.0.0/8
   ⟨0x0A000000, 8⟩,   -- 10.0.0.0/8
   ⟨0x7F000000, 8⟩,   -- 127.0.0.0/8
   ⟨0xA9FE0000, 16⟩,  -- 169.254.0.0/16
   ⟨0xAC100000, 12⟩,  -- 172.16.0.0/12
   ⟨0xC0000000, 29⟩,  -- 192.0.0.0/29
   ⟨0xC00000AA, 31⟩,  -- 192.0.0.170/31
   ⟨0xC0000200, 24⟩,  -- 192.0.2.0/24
   ⟨0xC0A80000, 16⟩,  -- 192.168.0.0/16
   ⟨0xC6120000, 15⟩,  -- 198.18.0.0/15
   ⟨0xC6336400, 24⟩,  -- 198.51.100.0/24
   ⟨0xCB007100, 24⟩,  -- 203.0.113.0/24
   ⟨0xF0000000, 4⟩,   -- 240.0.0.0/4
   ⟨0xFFFFFFFF, 32⟩]  -- 255.255.255.255/32

/-- Python `IPv4Address.is_private`: membership in one of the private
networks. -/
def isPrivate (x : Nat) : Bool :=
  privateNetworks.any (fun n => containsAddr n x)

/-- Rounding `j` up to the next multiple of `step` (`logic.py` lines 138-142):
`remainder = jump_target % step; if remainder != 0: jump_target += step - remainder`. -/
def alignUp (j step : Nat) : Nat :=
  if j % step ≠ 0 then j + (step - j % step) else j

/-- The inner `for n in networks` loop of `find_next_free_subnet`
(`logic.py` lines 128-145): skip a network once the candidate's base is at
or past its broadcast (`>=`, line 130); on the first remaining network that
overlaps, stop and produce the aligned jump target past its broadcast;
`none` when no overlap is found. -/
def findConflict (candidate : Block) (step : Nat) : List Block → Option Nat
  | [] => none
  | n :: rest =>
    if candidate.base ≥ n.broadcast then findConflict candidate step rest
    else if pyOverlaps candidate n then some (alignUp (n.broadcast + 1) step)
    else findConflict candidate step rest

/-- The `while cursor <= limit` loop of `find_next_free_subnet`
(`logic.py` lines 116-150), with explicit fuel (the caller passes more fuel
than the loop can consume, so exhaustion is unreachable).  A cursor with host
bits set makes the strict `ip_network` call raise, advancing by `step`;
otherwise the candidate is returned if no existing network conflicts, else
the cursor jumps to `max (cursor + step) jumpTarget`. -/
def freeLoop (networks : List Block) (p step limit : Nat) : Nat → Nat → Option Block
  | 0, _ => none
  | fuel + 1, cursor =>
    if cursor > limit then none
    else if cursor % step ≠ 0 then
      freeLoop networks p step limit fuel (cursor + step)
    else
      let candidate : Block := ⟨cursor, p⟩
      match findConflict candidate step networks with
      | none => some candidate
      | some jt => freeLoop networks p step limit fuel (max (cursor + step) jt)

/-- Insertion into a list sorted by ascending network address. -/
def insertByBase (b : Block) : List Block → List Block
  | [] => [b]
  | x :: xs => if b.base ≤ x.base then b :: x :: xs else x :: insertByBase b xs

/-- `networks.sort(key=lambda x: x.network_address)` (`logic.py` line 81). -/
def sortByBase : List Block → List Block
  | [] => []
  | x :: xs => insertByBase x (sortByBase xs)

/-- The scope heuristic of `find_next_free_subnet` (`logic.py` lines 83-94):
if the first sorted network's address is private, choose `10.0.0.0/8`,
`172.16.0.0/12` or `192.168.0.0/16` according to the textual prefix of
`str(first_net)`; otherwise fall back to `10.0.0.0/8`. -/
def scopeOf (first : Block) : Block :=
  if isPrivate first.base then
    if (netChars first).take 3 = ['1', '0', '.'] then ⟨0x0A000000, 8⟩
    else if (netChars first).take 4 = ['1', '7', '2', '.'] then ⟨0xAC100000, 12⟩
    else ⟨0xC0A80000, 16⟩
  else ⟨0x0A000000, 8⟩

/-- `find_next_free_subnet` (`logic.py` lines 57-152).  The existing subnets
are given post-parse: `some b` for a CIDR that `ip_network` accepts
(then `b.wf` holds), `none` for one that raises `ValueError` and is skipped by
the `try/except` at lines 76-79.  The result is `Except.error ()` for the
uncaught `IndexError` of `networks[0]` (line 85), `.ok none` for Python
`None`, and `.ok (some b)` for a returned CIDR string, given as the parsed
block `b` (the code returns `str(candidate_net)`; the empty-set shortcut
returns the formatted string `"10.0.0.0/{prefix}"`, i.e. base `0x0A000000`).
The guard before the loop models line 102: `ip_network((candidate_start,
prefix_length))` is strict, so an out-of-range prefix or host bits in the
scope base raise `ValueError`, caught at line 103 and turned into `None`.
The fuel `broadcast + 2` exceeds the number of loop iterations (the cursor
grows by at least one each time), so exhaustion is unreachable. -/
def find_next_free_subnet (existing_subnets : List (Option Block))
    (prefix_length : Nat) : Except Unit (Option Block) :=
  if existing_subnets = [] then .ok (some ⟨0x0A000000, prefix_length⟩)
  else
    match sortByBase (existing_subnets.filterMap id) with
    | [] => .error ()
    | first :: rest =>
      if prefix_length > 32 ∨ (scopeOf first).base % 2 ^ (32 - prefix_length) ≠ 0 then
        .ok none
      else
        .ok (freeLoop (first :: rest) prefix_length (2 ^ (32 - prefix_length))
          (scopeOf first).broadcast ((scopeOf first).broadcast + 2) (scopeOf first).base)

/-! ### Decimal rendering facts -/

set_option maxRecDepth 4096 in
theorem decVal_decChars : ∀ n < 256, decVal (decChars n) = n := by decide

set_option maxRecDepth 4096 in
theorem dot_not_mem_decChars : ∀ n < 256, '.' ∉ decChars n := by decide

theorem decChars_inj {m n : Nat} (hm : m < 256) (hn : n < 256)
    (h : decChars m = decChars n) : m = n := by
  have h1 := decVal_decChars m hm
  have h2 := decVal_decChars n hn
  rw [← h1, ← h2, h]

theorem append_dot_inj : ∀ (A₁ : List Char) {A₂ R₁ R₂ : List Char},
    '.' ∉ A₁ → '.' ∉ A₂ → A₁ ++ '.' :: R₁ = A₂ ++ '.' :: R₂ → A₁ = A₂ ∧ R₁ = R₂ := by
  intro A₁
  induction A₁ with
  | nil =>
    intro A₂ R₁ R₂ _ h2 h
    cases A₂ with
    | nil => simpa using h
    | cons c t =>
      simp only [List.nil_append, List.cons_append, List.cons.injEq] at h
      exact absurd (h.1 ▸ List.mem_cons_self c t) h2
  | cons c t ih =>
    intro A₂ R₁ R₂ h1 h2 h
    cases A₂ with
    | nil =>
      simp only [List.cons_append, List.nil_append, List.cons.injEq] at h
      exact absurd (h.1 ▸ List.mem_cons_self c t) h1
    | cons c₂ t₂ =>
      simp only [List.cons_append, List.cons.injEq] at h
      obtain ⟨rfl, h'⟩ := h
      have hrec := ih (fun hm => h1 (List.mem_cons_of_mem _ hm))
        (fun hm => h2 (List.mem_cons_of_mem _ hm)) h'
      exact ⟨by rw [hrec.1], hrec.2⟩

theorem ipToChars_inj {v w : Nat} (hv : v < 2 ^ 32) (hw : w < 2 ^ 32)
    (h : ipToChars v = ipToChars w) : v = w := by
  have p24 : (2 : Nat) ^ 24 = 16777216 := by norm_num
  have p16 : (2 : Nat) ^ 16 = 65536 := by norm_num
  have p8 : (2 : Nat) ^ 8 = 256 := by norm_num
  have p32 : (2 : Nat) ^ 32 = 4294967296 := by norm_num
  rw [p32] at hv hw
  have bv1 : v / 2 ^ 24 < 256 := by rw [p24]; omega
  have bw1 : w / 2 ^ 24 < 256 := by rw [p24]; omega
  have bv2 : v / 2 ^ 16 % 256 < 256 := Nat.mod_lt _ (by norm_num)
  have bw2 : w / 2 ^ 16 % 256 < 256 := Nat.mod_lt _ (by norm_num)
  have bv3 : v / 2 ^ 8 % 256 < 256 := Nat.mod_lt _ (by norm_num)
  have bw3 : w / 2 ^ 8 % 256 < 256 := Nat.mod_lt _ (by norm_num)
  have bv4 : v % 256 < 256 := Nat.mod_lt _ (by norm_num)
  have bw4 : w % 256 < 256 := Nat.mod_lt _ (by norm_num)
  unfold ipToChars at h
  obtain ⟨e1, h⟩ := append_dot_inj _ (dot_not_mem_decChars _ bv1) (dot_not_mem_decChars _ bw1) h
  obtain ⟨e2, h⟩ := append_dot_inj _ (dot_not_mem_decChars _ bv2) (dot_not_mem_decChars _ bw2) h
  obtain ⟨e3, e4⟩ := append_dot_inj _ (dot_not_mem_decChars _ bv3) (dot_not_mem_decChars _ bw3) h
  have q1 := decChars_inj bv1 bw1 e1
  have q2 := decChars_inj bv2 bw2 e2
  have q3 := decChars_inj bv3 bw3 e3
  have q4 := decChars_inj bv4 bw4 e4
  rw [p24] at q1
  rw [p16] at q2
  rw [p8] at q3
  omega

theorem ipToString_inj {v w : Nat} (hv : v < 2 ^ 32) (hw : w < 2 ^ 32)
    (h : ipToString v = ipToString w) : v = w := by
  apply ipToChars_inj hv hw
  exact congrArg String.data h

/-! ### Interval facts about blocks -/

theorem Block.size_pos (b : Block) : 0 < b.size :=
  Nat.pos_pow_of_pos _ (by norm_num)

theorem Block.base_le_broadcast (b : Block) : b.base ≤ b.broadcast := by
  have := b.size_pos
  unfold Block.broadcast
  omega

theorem containsAddr_iff {n : Block} (hn : n.wf) (x : Nat) :
    containsAddr n x = true ↔ n.base ≤ x ∧ x ≤ n.broadcast := by
  have hkpos : 0 < n.size := n.size_pos
  obtain ⟨m, hm⟩ : n.size ∣ n.base := Nat.dvd_of_mod_eq_zero hn.2.2
  unfold containsAddr Block.broadcast
  rw [beq_iff_eq]
  constructor
  · intro h
    have h1 : x / n.size * n.size ≤ x := Nat.div_mul_le_self x n.size
    have h2 : n.size * (x / n.size) + x % n.size = x := Nat.div_add_mod x n.size
    have h3 : x % n.size < n.size := Nat.mod_lt _ hkpos
    rw [Nat.mul_comm] at h2
    generalize hA : x / n.size * n.size = A at h h1 h2
    omega
  · rintro ⟨h1, h2⟩
    obtain ⟨d, hd⟩ : ∃ d, x = n.size * m + d := ⟨x - n.base, by omega⟩
    have hdlt : d < n.size := by
      have : n.size * m + d ≤ n.size * m + n.size - 1 := by omega
      omega
    subst hd
    rw [Nat.mul_add_div hkpos, Nat.div_eq_of_lt hdlt, Nat.add_zero, Nat.mul_comm, ← hm]

theorem pyOverlaps_iff {a b : Block} (ha : a.wf) (hb : b.wf) :
    pyOverlaps a b = true ↔ a.base ≤ b.broadcast ∧ b.base ≤ a.broadcast := by
  have h1 := a.base_le_broadcast
  have h2 := b.base_le_broadcast
  unfold pyOverlaps
  simp only [Bool.or_eq_true, Bool.and_eq_true, containsAddr_iff ha, containsAddr_iff hb]
  omega

/-! ### Overlap validator: claims C2 and C8 -/

/-- C2: for a parseable candidate and parseable existing subnets, the overlap
validator returns `true` exactly when some existing block's address range
intersects the candidate's range, i.e. `candidate.base ≤ other.broadcast` and
`other.base ≤ candidate.broadcast` for some member; subset, superset and
partial overlap are all instances of this condition. -/
theorem validate_overlap_iff_intersection (cand : Block) (existing : List Block)
    (hc : cand.wf) (hex : ∀ n ∈ existing, n.wf) :
    validate_overlap cand existing = true ↔
      ∃ n ∈ existing, cand.base ≤ n.broadcast ∧ n.base ≤ cand.broadcast := by
  unfold validate_overlap
  rw [List.any_eq_true]
  constructor
  · rintro ⟨n, hn, ho⟩
    exact ⟨n, hn, (pyOverlaps_iff hc (hex n hn)).mp ho⟩
  · rintro ⟨n, hn, h⟩
    exact ⟨n, hn, (pyOverlaps_iff hc (hex n hn)).mpr h⟩

/-- Witness for C2 at the spec's subset scenario:
`overlaps("192.168.1.0/25", ["192.168.1.0/24"])`. -/
theorem validate_overlap_iff_intersection_witness :
    validate_overlap ⟨3232235776, 25⟩ [⟨3232235776, 24⟩] = true ↔
      ∃ n ∈ [(⟨3232235776, 24⟩ : Block)],
        3232235776 ≤ n.broadcast ∧ n.base ≤ Block.broadcast ⟨3232235776, 25⟩ :=
  validate_overlap_iff_intersection ⟨3232235776, 25⟩ [⟨3232235776, 24⟩]
    (by decide) (by decide)

/-- C8: the boolean result of the overlap validator does not depend on the
order of the existing subnets; any permutation of the list yields the same
boolean. -/
theorem validate_overlap_perm_invariant (cand : Block) {l₁ l₂ : List Block}
    (h : l₁.Perm l₂) :
    validate_overlap cand l₁ = validate_overlap cand l₂ := by
  unfold validate_overlap
  rw [Bool.eq_iff_iff, List.any_eq_true, List.any_eq_true]
  constructor
  · rintro ⟨n, hn, ho⟩
    exact ⟨n, h.mem_iff.mp hn, ho⟩
  · rintro ⟨n, hn, ho⟩
    exact ⟨n, h.mem_iff.mpr hn, ho⟩

/-- Witness for C8: the two orders of a concrete two-element existing set give
the same boolean. -/
theorem validate_overlap_perm_invariant_witness :
    validate_overlap ⟨3232235776, 25⟩ [⟨3232235776, 24⟩, ⟨167772160, 24⟩]
      = validate_overlap ⟨3232235776, 25⟩ [⟨167772160, 24⟩, ⟨3232235776, 24⟩] :=
  validate_overlap_perm_invariant ⟨3232235776, 25⟩ (by decide)

/-! ### Utilization calculator: claims C5 and C7 -/

/-- C5 counterexample: one allocation against the /31 block `10.0.0.0/31`
yields `100.0`, not `(1 / 2) * 100 = 50.0` as the claim's
`totalUsable = 2` rule would give. -/
theorem utilization_slash31_counterexample :
    calculate_utilization 1 ⟨167772160, 31⟩ = 100 ∧
      calculate_utilization 1 ⟨167772160, 31⟩ ≠ 1 / 2 * 100 := by
  constructor
  · decide
  · intro h
    rw [show calculate_utilization 1 ⟨167772160, 31⟩ = 100 from by decide] at h
    norm_num at h

/-- C5 amended: a /31 block falls into the degenerate branch
(`total_usable = num_addresses - 2 = 0`), so the calculator returns `100.0`
for any positive allocation count (not 50.0 for one allocation) and `0.0`
otherwise; a /32 block also falls into that branch (`total_usable = -1`),
and one allocation against it yields `100.0`. -/
theorem utilization_degenerate_prefixes (b : Block) (c : Int) :
    (b.prefix_len = 31 → calculate_utilization c b = if 0 < c then 100 else 0) ∧
      (b.prefix_len = 32 → calculate_utilization 1 b = 100) := by
  constructor
  · intro h
    simp only [calculate_utilization, Block.size, h]
    norm_num
  · intro h
    simp only [calculate_utilization, Block.size, h]
    norm_num

/-- Witness for the amended C5 at concrete /31 and /32 blocks. -/
theorem utilization_degenerate_prefixes_witness :
    calculate_utilization 1 ⟨167772162, 31⟩ = 100 ∧
      calculate_utilization 1 ⟨167772163, 32⟩ = 100 :=
  ⟨by rw [(utilization_degenerate_prefixes ⟨167772162, 31⟩ 1).1 rfl]; norm_num,
   (utilization_degenerate_prefixes ⟨167772163, 32⟩ 1).2 rfl⟩

/-- C7: whenever `total_usable = num_addresses - 2` is zero or negative (as
for a /31 or /32), the calculator takes the guarded branch and returns
exactly `100.0` when the allocation count is positive and exactly `0.0`
when it is zero, performing no division. -/
theorem utilization_no_division_when_degenerate (c : Int) (b : Block)
    (h : (b.size : Int) - 2 ≤ 0) :
    calculate_utilization c b = if 0 < c then 100 else 0 := by
  simp only [calculate_utilization, if_pos h]

/-- Witness for C7 at a /32 block with counts 5 and 0. -/
theorem utilization_no_division_when_degenerate_witness :
    calculate_utilization 5 ⟨167772160, 32⟩ = 100 ∧
      calculate_utilization 0 ⟨167772160, 32⟩ = 0 :=
  ⟨by rw [utilization_no_division_when_degenerate 5 ⟨167772160, 32⟩ (by decide)]; norm_num,
   by rw [utilization_no_division_when_degenerate 0 ⟨167772160, 32⟩ (by decide)]; norm_num⟩

/-! ### Host scanner: claims C4 and C6 -/

theorem contains_true_iff (l : List String) (s : String) :
    l.contains s = true ↔ s ∈ l := List.elem_iff

theorem contains_false_iff (l : List String) (s : String) :
    l.contains s = false ↔ s ∉ l := by
  cases h : l.contains s
  · simpa using fun hm => by rw [(contains_true_iff l s).mpr hm] at h; cases h
  · simpa using (contains_true_iff l s).mp h

theorem find?_range'_first (p : Nat → Bool) :
    ∀ (n s x : Nat), s ≤ x → x < s + n → p x = true →
      (∀ y, s ≤ y → y < x → p y = false) →
        (List.range' s n).find? p = some x := by
  intro n
  induction n with
  | zero => intro s x h1 h2 _ _; omega
  | succ n ih =>
    intro s x h1 h2 hx hbefore
    rw [show List.range' s (n + 1) = s :: List.range' (s + 1) n from rfl]
    rcases Nat.eq_or_lt_of_le h1 with rfl | hlt
    · exact List.find?_cons_of_pos _ hx
    · rw [List.find?_cons_of_neg _ (by simp [hbefore s (Nat.le_refl s) hlt])]
      exact ih (s + 1) x hlt (by omega) hx (fun y hy1 hy2 => hbefore y (by omega) hy2)

theorem hostsList_of_le_30 {b : Block} (hp : b.prefix_len ≤ 30) :
    hostsList b = List.range' (b.base + 1) (b.size - 2) := by
  unfold hostsList
  rw [if_neg (by omega), if_neg (by omega)]

theorem size_ge_four {b : Block} (hp : b.prefix_len ≤ 30) : 4 ≤ b.size := by
  have : (2 : Nat) ^ 2 ≤ 2 ^ (32 - b.prefix_len) :=
    Nat.pow_le_pow_right (by norm_num) (by omega)
  simpa [Block.size] using this

/-- C6: for a prefix length of at most 30, the host scanner returns the
smallest address strictly between base and broadcast whose dotted form is not
among the used strings, and returns `none` exactly when every address of the
host range is used. -/
theorem scanner_returns_first_free (b : Block) (used : List String)
    (_hwf : b.wf) (hp : b.prefix_len ≤ 30) :
    (∀ x, x < b.broadcast → b.base < x → ipToString x ∉ used →
       (∀ y, y < x → b.base < y → ipToString y ∈ used) →
         get_next_available_ip b used = some (ipToString x)) ∧
    (get_next_available_ip b used = none ↔
       ∀ x, x < b.broadcast → b.base < x → ipToString x ∈ used) := by
  have hsz := size_ge_four hp
  have hbc : b.broadcast = b.base + b.size - 1 := rfl
  unfold get_next_available_ip
  rw [hostsList_of_le_30 hp]
  constructor
  · intro x hx1 hx2 hx3 hx4
    rw [find?_range'_first _ (b.size - 2) (b.base + 1) x (by omega) (by omega)
      (by simp [contains_false_iff, hx3])
      (fun y hy1 hy2 => by simp [contains_true_iff, hx4 y hy2 (by omega)])]
    rfl
  · rw [Option.map_eq_none', List.find?_eq_none]
    constructor
    · intro h x hx1 hx2
      have := h x (by rw [List.mem_range'_1]; omega)
      simpa [contains_true_iff] using this
    · intro h x hx
      rw [List.mem_range'_1] at hx
      simp [contains_true_iff]
      exact h x (by omega) (by omega)

/-- Witness for C6 at the spec's scenario 4:
`nextAvailable("192.168.1.0/24", used=["192.168.1.1","192.168.1.2"])` is
`"192.168.1.3"`. -/
theorem scanner_returns_first_free_witness :
    get_next_available_ip ⟨3232235776, 24⟩ ["192.168.1.1", "192.168.1.2"]
      = some (ipToString 3232235779) := by
  apply (scanner_returns_first_free ⟨3232235776, 24⟩ ["192.168.1.1", "192.168.1.2"]
    (by decide) (by decide)).1 3232235779 (by decide) (by decide) (by decide)
  intro y hy1 hy2
  interval_cases y
  · decide
  · decide

theorem size_dvd_total (b : Block) : b.size ∣ 2 ^ 32 := by
  unfold Block.size
  exact Nat.pow_dvd_pow 2 (by omega)

theorem broadcast_lt {b : Block} (hwf : b.wf) : b.broadcast < 2 ^ 32 := by
  obtain ⟨m, hm⟩ : b.size ∣ b.base := Nat.dvd_of_mod_eq_zero hwf.2.2
  obtain ⟨k, hk⟩ := size_dvd_total b
  have hpos := b.size_pos
  have hbase := hwf.2.1
  have hmk : m < k := by
    by_contra hle
    push_neg at hle
    have : b.size * k ≤ b.size * m := Nat.mul_le_mul_left _ hle
    omega
  have : b.size * (m + 1) ≤ b.size * k := Nat.mul_le_mul_left _ hmk
  unfold Block.broadcast
  rw [Nat.mul_add] at this
  omega

/-- C4: the host scanner never returns the network or broadcast address of a
subnet with prefix length at most 30; for a /31 both addresses of the block
are eligible (the first free one is returned), and for a /32 the single
address is eligible. -/
theorem scanner_network_broadcast_rules (b : Block) (hwf : b.wf) :
    (b.prefix_len ≤ 30 → ∀ (used : List String) (s : String),
       get_next_available_ip b used = some s →
         s ≠ ipToString b.base ∧ s ≠ ipToString b.broadcast) ∧
    (b.prefix_len = 31 →
       get_next_available_ip b [] = some (ipToString b.base) ∧
       get_next_available_ip b [ipToString b.base]
         = some (ipToString (b.base + 1))) ∧
    (b.prefix_len = 32 → get_next_available_ip b [] = some (ipToString b.base)) := by
  have hbclt := broadcast_lt hwf
  have hbase := hwf.2.1
  have hbc : b.broadcast = b.base + b.size - 1 := rfl
  have hpos := b.size_pos
  refine ⟨?_, ?_, ?_⟩
  · intro hp used s h
    have hsz := size_ge_four hp
    unfold get_next_available_ip at h
    rw [hostsList_of_le_30 hp, Option.map_eq_some'] at h
    obtain ⟨x, hfind, rfl⟩ := h
    have hmem := List.mem_of_find?_eq_some hfind
    rw [List.mem_range'_1] at hmem
    constructor
    · intro hcontra
      have := ipToString_inj (by omega) (by omega) hcontra
      omega
    · intro hcontra
      have := ipToString_inj (by omega) (by omega) hcontra
      omega
  · intro hp
    have hlist : hostsList b = [b.base, b.base + 1] := by
      unfold hostsList
      rw [if_neg (by omega), if_pos hp]
    have hsz : b.size = 2 := by
      unfold Block.size
      rw [hp]
      norm_num
    constructor
    · unfold get_next_available_ip
      rw [hlist]
      rfl
    · unfold get_next_available_ip
      rw [hlist]
      have hne : ipToString (b.base + 1) ≠ ipToString b.base := by
        intro hcontra
        have := ipToString_inj (by omega) (by omega) hcontra
        omega
      rw [List.find?_cons_of_neg _ (by simp [contains_true_iff]),
        List.find?_cons_of_pos _ (by simp [contains_false_iff, hne])]
      rfl
  · intro hp
    have hlist : hostsList b = [b.base] := by
      unfold hostsList
      rw [if_pos hp]
    unfold get_next_available_ip
    rw [hlist]
    rfl

/-- Witness for C4: on `192.168.1.0/24` with nothing used, the scanner's
result `192.168.1.1` is neither the network nor the broadcast address. -/
theorem scanner_network_broadcast_rules_witness :
    "192.168.1.1" ≠ ipToString 3232235776 ∧
      "192.168.1.1" ≠ ipToString (Block.broadcast ⟨3232235776, 24⟩) :=
  (scanner_network_broadcast_rules ⟨3232235776, 24⟩ (by decide)).1 (by decide)
    [] "192.168.1.1" (by decide)

/-! ### Claim C9: membership by exact string equality -/

/-- Split a character list at every dot, as dotted-quad text is read. -/
def splitDots : List Char → List (List Char)
  | [] => [[]]
  | c :: cs =>
    if c = '.' then [] :: splitDots cs
    else
      match splitDots cs with
      | [] => [[c]]
      | p :: ps => (c :: p) :: ps

/-- Numeric value of one textual octet: nonempty, all decimal digits, below
256.  Leading zeros are allowed, so non-canonical spellings such as `001`
denote the same number as `1`. -/
def octetVal (cs : List Char) : Option Nat :=
  if cs.isEmpty then none
  else if cs.all (fun c => c.isDigit) then
    if decVal cs < 256 then some (decVal cs) else none
  else none

/-- Numeric denotation of dotted-quad text (four octets, leading zeros
allowed).  This is the statement-side notion of two textual forms being
numerically equal; it is not part of the translated code, which compares the
strings themselves. -/
def dottedQuadVal (s : String) : Option Nat :=
  match (splitDots s.data).map octetVal with
  | [some a, some b, some c, some d] =>
    some (((a * 256 + b) * 256 + c) * 256 + d)
  | _ => none

/-- C9: the host scanner compares the used entries with the candidate's
dotted string by exact string equality.  A returned string is never literally
one of the used entries, yet with the non-canonical used entry
`"192.168.001.001"` on `192.168.1.0/24` the scanner returns
`"192.168.1.1"`, a different string denoting the same address
`3232235777`. -/
theorem scanner_membership_is_textual :
    (∀ (b : Block) (used : List String) (s : String),
       get_next_available_ip b used = some s → s ∉ used) ∧
    get_next_available_ip ⟨3232235776, 24⟩ ["192.168.001.001"]
      = some "192.168.1.1" ∧
    dottedQuadVal "192.168.001.001" = some 3232235777 ∧
    dottedQuadVal "192.168.1.1" = some 3232235777 ∧
    ("192.168.001.001" : String) ≠ "192.168.1.1" := by
  refine ⟨?_, by decide, by decide, by decide, by decide⟩
  intro b used s h
  unfold get_next_available_ip at h
  rw [Option.map_eq_some'] at h
  obtain ⟨x, hfind, rfl⟩ := h
  have := List.find?_some hfind
  simp only [Bool.not_eq_eq_eq_not, Bool.not_false] at this
  exact (contains_false_iff used (ipToString x)).mp (by simpa using this)

/-- Witness for C9: the returned string is not literally among the used
entries. -/
theorem scanner_membership_is_textual_witness :
    ("192.168.1.1" : String) ∉ (["192.168.001.001"] : List String) :=
  scanner_membership_is_textual.1 ⟨3232235776, 24⟩ ["192.168.001.001"]
    "192.168.1.1" scanner_membership_is_textual.2.1

/-! ### Free-block finder: claims C1, C3 and C10 -/

/-- C1: demonstration of the failing input.  With the single existing subnet
`10.0.0.0/32` and a requested prefix of 24, the finder returns `10.0.0.0/24`
without jumping, although that block overlaps the existing `10.0.0.0/32`:
the skip test at line 130 uses `>=`, so a network whose broadcast equals the
candidate's base is never checked for overlap. -/
theorem finder_returns_block_over_slash32 :
    find_next_free_subnet [some ⟨167772160, 32⟩] 24
      = .ok (some ⟨167772160, 24⟩) ∧
    pyOverlaps ⟨167772160, 24⟩ ⟨167772160, 32⟩ = true ∧
    validate_overlap ⟨167772160, 24⟩ [⟨167772160, 32⟩] = true := by
  refine ⟨by decide, by decide, by decide⟩

/-- C3 counterexample: with an empty existing set and prefix length 0, the
shortcut at line 72 returns the string `10.0.0.0/0`, whose base `167772160`
is not a multiple of `2^32`: the returned block is not aligned to the
requested prefix length. -/
theorem finder_alignment_counterexample :
    find_next_free_subnet [] 0 = .ok (some ⟨167772160, 0⟩) ∧
      167772160 % 2 ^ (32 - 0) ≠ 0 := by
  refine ⟨by decide, by decide⟩

theorem freeLoop_aligned (networks : List Block) (p step limit : Nat) :
    ∀ (fuel cursor : Nat) (blk : Block),
      freeLoop networks p step limit fuel cursor = some blk →
        blk.prefix_len = p ∧ blk.base % step = 0 := by
  intro fuel
  induction fuel with
  | zero => intro cursor blk h; simp [freeLoop] at h
  | succ n ih =>
    intro cursor blk h
    rw [show freeLoop networks p step limit (n + 1) cursor =
        (if cursor > limit then none
         else if cursor % step ≠ 0 then freeLoop networks p step limit n (cursor + step)
         else
           match findConflict ⟨cursor, p⟩ step networks with
           | none => some ⟨cursor, p⟩
           | some jt => freeLoop networks p step limit n (max (cursor + step) jt))
      from rfl] at h
    by_cases h1 : cursor > limit
    · rw [if_pos h1] at h
      cases h
    · rw [if_neg h1] at h
      by_cases h2 : cursor % step ≠ 0
      · rw [if_pos h2] at h
        exact ih _ _ h
      · rw [if_neg h2] at h
        rcases hf : findConflict ⟨cursor, p⟩ step networks with _ | jt <;> rw [hf] at h
        · simp only [Option.some.injEq] at h
          rw [← h]
          refine ⟨rfl, ?_⟩
          show cursor % step = 0
          omega
        · exact ih _ _ h

/-- C3 amended: every block the finder returns is aligned to the requested
prefix length, provided the existing set is nonempty or the prefix length is
at least 7 (the empty-set shortcut returns base `10.0.0.0 = 5 * 2^25`, which
is aligned exactly to prefix lengths of 7 or more).  Blocks returned from the
search loop are aligned unconditionally, because the loop only returns a
candidate whose cursor passed the strict parse, i.e. has no host bits. -/
theorem finder_alignment (existing : List (Option Block)) (p : Nat) (blk : Block)
    (hne : existing = [] → 7 ≤ p)
    (h : find_next_free_subnet existing p = .ok (some blk)) :
    blk.prefix_len = p ∧ blk.base % 2 ^ (32 - p) = 0 := by
  by_cases hem : existing = []
  · rw [hem] at h
    unfold find_next_free_subnet at h
    rw [if_pos rfl] at h
    simp only [Except.ok.injEq, Option.some.injEq] at h
    have hp := hne hem
    obtain ⟨c, hc⟩ : 2 ^ (32 - p) ∣ 167772160 :=
      Dvd.dvd.trans (Nat.pow_dvd_pow 2 (show 32 - p ≤ 25 by omega)) ⟨5, by norm_num⟩
    rw [← h]
    refine ⟨rfl, ?_⟩
    rw [hc]
    exact Nat.mul_mod_right _ _
  · unfold find_next_free_subnet at h
    rw [if_neg hem] at h
    rcases hnet : sortByBase (existing.filterMap id) with _ | ⟨first, rest⟩ <;>
      rw [hnet] at h
    · cases h
    · replace h :
          (if p > 32 ∨ (scopeOf first).base % 2 ^ (32 - p) ≠ 0 then Except.ok none
           else Except.ok (freeLoop (first :: rest) p (2 ^ (32 - p))
             (scopeOf first).broadcast ((scopeOf first).broadcast + 2)
             (scopeOf first).base)) = Except.ok (some blk) := h
      by_cases hbad : p > 32 ∨ (scopeOf first).base % 2 ^ (32 - p) ≠ 0
      · rw [if_pos hbad] at h
        cases h
      · rw [if_neg hbad] at h
        simp only [Except.ok.injEq] at h
        exact freeLoop_aligned _ _ _ _ _ _ _ h

/-- Witness for the amended C3 at an empty existing set and prefix 24. -/
theorem finder_alignment_witness :
    Block.prefix_len ⟨167772160, 24⟩ = 24 ∧ 167772160 % 2 ^ (32 - 24) = 0 :=
  finder_alignment [] 24 ⟨167772160, 24⟩ (fun _ => by omega) (by decide)

theorem filterMap_id_filter_isSome (l : List (Option Block)) :
    (l.filter (fun o => o.isSome)).filterMap id = l.filterMap id := by
  induction l with
  | nil => rfl
  | cons o t ih =>
    cases o with
    | none => simpa [List.filter, List.filterMap] using ih
    | some b => simpa [List.filter, List.filterMap] using ih

/-- C10 counterexample: with the nonempty existing list whose single entry is
unparseable, the finder raises `IndexError` at `networks[0]` (line 85) instead
of returning, while running it on the list with the unparseable entry removed
(the empty list) returns `10.0.0.0/24`: the claim's "never raises" and its
equality both fail. -/
theorem finder_crashes_when_nothing_parses :
    find_next_free_subnet [(none : Option Block)] 24 = .error () ∧
      find_next_free_subnet
        (List.filter (fun o => o.isSome) [(none : Option Block)]) 24
        = .ok (some ⟨167772160, 24⟩) := by
  refine ⟨by decide, by decide⟩

/-- C10 amended: unparseable entries of a nonempty existing list are silently
skipped and the result equals running the finder on the list with those
entries removed, provided at least one entry parses; if the list is nonempty
and no entry parses, the finder instead raises `IndexError` (it does not
return). -/
theorem finder_skips_unparseable (existing : List (Option Block)) (p : Nat)
    (hne : existing ≠ []) :
    (existing.filterMap id ≠ [] →
       find_next_free_subnet existing p
         = find_next_free_subnet (existing.filter (fun o => o.isSome)) p) ∧
    (existing.filterMap id = [] →
       find_next_free_subnet existing p = .error ()) := by
  constructor
  · intro hfm
    have hfne : existing.filter (fun o => o.isSome) ≠ [] := by
      intro hcontra
      rw [← filterMap_id_filter_isSome, hcontra] at hfm
      exact hfm rfl
    unfold find_next_free_subnet
    rw [if_neg hne, if_neg hfne, filterMap_id_filter_isSome]
  · intro hfm
    unfold find_next_free_subnet
    rw [if_neg hne, hfm]
    rfl

/-- Witness for the amended C10: dropping an unparseable entry next to one
parseable subnet does not change the result. -/
theorem finder_skips_unparseable_witness :
    find_next_free_subnet [some ⟨167772160, 24⟩, none] 24
      = find_next_free_subnet
          (List.filter (fun o => o.isSome) [some ⟨167772160, 24⟩, none]) 24 :=
  (finder_skips_unparseable [some ⟨167772160, 24⟩, none] 24 (by decide)).1
    (by decide)
